import Mathlib

/-!
Verification development for the DolphinScript interpreter (`src/main.rs`).

The Rust source is embedded shallowly:

* `HashMap<String, _>` becomes an association list with an insert-or-replace
  operation (`mapInsert`) and a lookup (`mapGet`); only lookup, insert and
  whole-map save/restore are used by the source, so the association list is a
  faithful model of the observable map behaviour.
* `&str` values are modelled as `List Char`; every slicing operation of the
  source (`s[i..j]`, `find`, `split`, `trim`, …) acts on characters.  All
  indices the source slices at are single-byte characters (`+`, `(`, `"`, …),
  so byte positions and character positions agree on the inputs involved.
* Functions that can loop (`exec_stmt` through `while`, the recursive-descent
  parser) take an explicit fuel argument; `Res.fuel` marks fuel exhaustion,
  an artifact of the embedding that never occurs for sufficient fuel
  (`parseExprF_fuel_inv` below makes this precise for the expression parser).
* A Rust panic (slice out of range, `.unwrap()` on `None`, …) is modelled as
  `Res.crash`.  A crash aborts the whole run; output that was already printed
  before a crash is not tracked.
* `i64` is modelled as `Int` (no claim comes near the overflow boundary;
  `str::parse::<i64>` keeps its range check), `f64` as Lean's `Float`.
  Float values are produced and carried but never inspected by any claim.
-/

/-- The result of a fueled, possibly-panicking computation. -/
inductive Res (α : Type) where
  | ok (a : α)
  | crash
  | fuel
deriving Repr

def Res.bind : Res α → (α → Res β) → Res β
  | .ok a, f => f a
  | .crash, _ => .crash
  | .fuel, _ => .fuel

instance : Monad Res where
  pure := .ok
  bind := Res.bind

-- ===== Types (Rust `enum Type`) =====
inductive Ty where
  | Int
  | Float
  | Bool
  | Str
  | List (t : Ty)
  | Void
  | Func (ps : List Ty) (r : Ty)
deriving Repr

-- Rust derives `PartialEq` for `Type`; structural equality, hand-rolled here
-- because `deriving DecidableEq` does not support the nested `List Ty`.
mutual
def tyBeq : Ty → Ty → Bool
  | .Int, .Int => true
  | .Float, .Float => true
  | .Bool, .Bool => true
  | .Str, .Str => true
  | .Void, .Void => true
  | .List a, .List b => tyBeq a b
  | .Func ps r, .Func qs w => tyBeqList ps qs && tyBeq r w
  | _, _ => false

def tyBeqList : List Ty → List Ty → Bool
  | [], [] => true
  | a :: l1, b :: l2 => tyBeq a b && tyBeqList l1 l2
  | _, _ => false
end

mutual
theorem tyBeq_iff : ∀ a b : Ty, tyBeq a b = true ↔ a = b
  | .Int, b => by cases b <;> simp [tyBeq]
  | .Float, b => by cases b <;> simp [tyBeq]
  | .Bool, b => by cases b <;> simp [tyBeq]
  | .Str, b => by cases b <;> simp [tyBeq]
  | .Void, b => by cases b <;> simp [tyBeq]
  | .List a, b => by
      cases b <;> simp [tyBeq]
      exact tyBeq_iff a _
  | .Func ps r, b => by
      cases b <;> simp [tyBeq]
      rw [tyBeq_iff r, tyBeqList_iff ps]

theorem tyBeqList_iff : ∀ a b : List Ty, tyBeqList a b = true ↔ a = b
  | [], b => by cases b <;> simp [tyBeqList]
  | a :: l1, b => by
      cases b with
      | nil => simp [tyBeqList]
      | cons b l2 =>
        simp only [tyBeqList, Bool.and_eq_true, tyBeq_iff a, tyBeqList_iff l1,
          List.cons.injEq]
end

instance : DecidableEq Ty := fun a b => decidable_of_iff _ (tyBeq_iff a b)

-- Rust `{:?}` (derived Debug) rendering of a `Type`, used in error messages.
mutual
def tyDebug : Ty → String
  | .Int => "Int"
  | .Float => "Float"
  | .Bool => "Bool"
  | .Str => "Str"
  | .Void => "Void"
  | .List t => "List(" ++ tyDebug t ++ ")"
  | .Func ps r => "Func([" ++ String.intercalate ", " (tyDebugList ps) ++ "], " ++ tyDebug r ++ ")"

def tyDebugList : List Ty → List String
  | [] => []
  | t :: ts => tyDebug t :: tyDebugList ts
end

-- ===== Values (Rust `enum Value`) =====
-- `Str(Rc<String>)` is immutable shared text: modelled as `String`.
-- `List(Rc<RefCell<Vec<Value>>>)` is a shared mutable vector; nothing in the
-- whole source ever constructs a list value or mutates one (no list literal
-- syntax exists and no statement writes through a list), so the payload is
-- modelled directly as `List Value`.
inductive Value where
  | Int (n : Int)
  | Float (x : Float)
  | Bool (b : Bool)
  | Str (s : String)
  | List (xs : List Value)

/-- `Value::get_type`: the type tag of a value; a list reports the type of its
element at index 0 (`rc.borrow().get(0)`), `List(Void)` when empty. -/
def Value.get_type : Value → Ty
  | .Int _ => .Int
  | .Float _ => .Float
  | .Bool _ => .Bool
  | .Str _ => .Str
  | .List [] => .List .Void
  | .List (v :: _) => .List v.get_type

-- Rust's `{}` rendering of an `f64` and Lean's `toString` differ in
-- formatting; no claim ever observes a printed float.
def floatDisplay (x : Float) : String := toString x

-- `impl fmt::Display for Value`
mutual
def dispValue : Value → String
  | .Int i => toString i
  | .Float x => floatDisplay x
  | .Bool b => if b then "true" else "false"
  | .Str s => s
  | .List xs => "[" ++ String.intercalate ", " (dispValueList xs) ++ "]"

def dispValueList : List Value → List String
  | [] => []
  | v :: vs => dispValue v :: dispValueList vs
end

-- ===== AST (Rust `enum Expr`, `enum Stmt`) =====
inductive Expr where
  | Literal (v : Value)
  | Var (n : String)
  | BinOp (a : Expr) (op : Char) (b : Expr)
  | Call (n : String) (args : List Expr)

inductive Stmt where
  | VarDef (n : String) (ty : Ty) (e : Expr)
  | Print (es : List Expr)
  | Shell (cmds : List String)
  | SetShell (sh : String)
  | If (cond : Expr) (t : List Stmt) (e : List Stmt)
  | While (cond : Expr) (body : List Stmt)
  | FuncDef (n : String) (params : List (String × Ty)) (ret : Ty) (body : List Stmt)
  | Exit
  | Clear
  | Help
  | ExprStmt (e : Expr)

-- ===== HashMap model =====
def mapInsert (k : String) (v : α) : List (String × α) → List (String × α)
  | [] => [(k, v)]
  | (k', v') :: rest => if k = k' then (k, v) :: rest else (k', v') :: mapInsert k v rest

def mapGet (k : String) : List (String × α) → Option α
  | [] => none
  | (k', v') :: rest => if k = k' then some v' else mapGet k rest

-- ===== Context (Rust `struct Context`) =====
structure Context where
  vars : List (String × Value)
  types : List (String × Ty)
  funcs : List (String × (List (String × Ty) × Ty × List Stmt))
  shell : String

def Context.new : Context :=
  { vars := [], types := [], funcs := [], shell := "/bin/sh" }

/-- Observable events of a run: `println!` / `print!` to stdout, `eprintln!`
to stderr, and dispatch of an external command (`Command::new(..).status()`,
whose exit status and output the source ignores). -/
inductive Ev where
  | outLine (s : String)
  | outRaw (s : String)
  | errLine (s : String)
  | shellCall (argv : List String)
deriving Repr, DecidableEq

-- ===== Character-level string helpers =====
-- `str::trim` (the source only ever feeds it ASCII whitespace).
def trimChars (s : List Char) : List Char :=
  ((s.dropWhile Char.isWhitespace).reverse.dropWhile Char.isWhitespace).reverse

def startsWithCh (pat s : List Char) : Bool := s.take pat.length = pat

-- `str::find(char)`, as a character index.
def findCh (c : Char) : List Char → Option Nat
  | [] => none
  | x :: xs => if x = c then some 0 else (findCh c xs).map (· + 1)

-- `str::find(&str)`, as a character index.
def findSub (pat : List Char) : List Char → Option Nat
  | [] => if startsWithCh pat [] then some 0 else none
  | x :: xs => if startsWithCh pat (x :: xs) then some 0 else (findSub pat xs).map (· + 1)

-- `str::split(char)` (returns one piece even for the empty string, like Rust).
def splitOnChar (c : Char) : List Char → List (List Char)
  | [] => [[]]
  | x :: xs =>
    if x = c then [] :: splitOnChar c xs
    else
      match splitOnChar c xs with
      | [] => [[x]]
      | h :: t => (x :: h) :: t

-- `str::split_once(char)`
def splitOnceCh (c : Char) (l : List Char) : Option (List Char × List Char) :=
  match findCh c l with
  | none => none
  | some i => some (l.take i, l.drop (i + 1))

-- `fn tokenize`: whitespace splitting that is quote-aware.
def tokenizeAux : List Char → Bool → List Char → List (List Char) → List (List Char)
  | [], _, cur, toks => if cur = [] then toks else toks ++ [cur]
  | c :: rest, inStr, cur, toks =>
    if c = '"' then tokenizeAux rest (!inStr) (cur ++ ['"']) toks
    else if c = ' ' && !inStr then
      if cur = [] then tokenizeAux rest inStr [] toks
      else tokenizeAux rest inStr [] (toks ++ [cur])
    else tokenizeAux rest inStr (cur ++ [c]) toks

def tokenize (s : List Char) : List String := (tokenizeAux s false [] []).map String.mk

-- ===== Numeric literal parsing =====
def isDigits (cs : List Char) : Bool := !cs.isEmpty && cs.all Char.isDigit

def natOfDigits (cs : List Char) : Nat :=
  cs.foldl (fun n c => n * 10 + (c.toNat - 48)) 0

/-- `str::parse::<i64>`: optional single sign, one or more ASCII digits,
value within the `i64` range. -/
def parseI64 (s : List Char) : Option Int :=
  let (sgn, ds) : Int × List Char :=
    match s with
    | '+' :: rest => (1, rest)
    | '-' :: rest => (-1, rest)
    | _ => (1, s)
  if isDigits ds then
    let v : Int := sgn * natOfDigits ds
    if -(2 ^ 63) ≤ v ∧ v ≤ 2 ^ 63 - 1 then some v else none
  else none

def lowerEq (cs : List Char) (pat : List Char) : Bool := cs.map Char.toLower = pat

-- `str::parse::<f64>` grammar (Rust docs):
--   Float  ::= Sign? ( 'inf' | 'infinity' | 'nan' | Number )
--   Number ::= Digit+ | Digit+ '.' Digit* | Digit* '.' Digit+ , each Exp?
--   Exp    ::= ('e' | 'E') Sign? Digit+
def f64ExpOk (cs : List Char) : Bool :=
  match cs with
  | '+' :: ds => isDigits ds
  | '-' :: ds => isDigits ds
  | ds => isDigits ds

def f64MantOk (cs : List Char) : Bool :=
  match splitOnceCh '.' cs with
  | none => isDigits cs
  | some (a, b) =>
    (isDigits a || a.isEmpty) && (isDigits b || b.isEmpty) && !(a.isEmpty && b.isEmpty)

def f64NumOk (cs : List Char) : Bool :=
  match findCh 'e' (cs.map Char.toLower) with
  | some i => f64MantOk (cs.take i) && f64ExpOk (cs.drop (i + 1))
  | none => f64MantOk cs

def f64Ok (s : List Char) : Bool :=
  let body := match s with
    | '+' :: r => r
    | '-' :: r => r
    | _ => s
  lowerEq body "inf".toList || lowerEq body "infinity".toList ||
    lowerEq body "nan".toList || f64NumOk body

-- The numeric value of a recognised f64 literal.  It is carried inside
-- `Value.Float` payloads and never inspected by any claim.
def f64Body (body : List Char) : Float :=
  if lowerEq body "inf".toList || lowerEq body "infinity".toList then (1.0 : Float) / 0.0
  else if lowerEq body "nan".toList then (0.0 : Float) / 0.0
  else
    let (mant, ex) : List Char × Int :=
      match findCh 'e' (body.map Char.toLower) with
      | some i =>
        let e := body.drop (i + 1)
        match e with
        | '+' :: ds => (body.take i, (natOfDigits ds : Int))
        | '-' :: ds => (body.take i, -(natOfDigits ds : Int))
        | ds => (body.take i, (natOfDigits ds : Int))
      | none => (body, 0)
    let (ip, fp) : List Char × List Char :=
      match splitOnceCh '.' mant with
      | some (a, b) => (a, b)
      | none => (mant, [])
    let m := natOfDigits (ip ++ fp)
    let e10 : Int := ex - fp.length
    if e10 < 0 then Float.ofScientific m true e10.natAbs
    else Float.ofScientific m false e10.natAbs

def f64Val (s : List Char) : Float :=
  match s with
  | '+' :: r => f64Body r
  | '-' :: r => -(f64Body r)
  | _ => f64Body s

-- ===== Expression parser (`fn parse_expr`) =====
/-- `inside.split(',').map(|a| parse_expr(a.trim()))`, collected left to
right; the first panic aborts. -/
def parseArgsWith (pe : List Char → Res Expr) : List (List Char) → Res (List Expr)
  | [] => .ok []
  | p :: ps => do
    let e ← pe (trimChars p)
    let es ← parseArgsWith pe ps
    .ok (e :: es)

/-- One layer of `parse_expr` over an abstract function `self` standing for
the recursive calls; the fueled `parseExprF` below ties the knot. -/
def parseExprStep (self : List Char → Res Expr) (s : List Char) : Res Expr :=
  let t := trimChars s
  if t.head? = some '"' ∧ t.getLast? = some '"' then
    -- `&s[1..s.len()-1]` panics when the trimmed string is the single char `"`
    if 2 ≤ t.length then .ok (.Literal (.Str (String.mk ((t.drop 1).dropLast))))
    else .crash
  else if t = "true".toList then .ok (.Literal (.Bool true))
  else if t = "false".toList then .ok (.Literal (.Bool false))
  else if t.contains '.' ∧ f64Ok t then .ok (.Literal (.Float (f64Val t)))
  else
    match parseI64 t with
    | some i => .ok (.Literal (.Int i))
    | none =>
      match findCh '+' t with
      | some i => do
        let l ← self (t.take i)
        let r ← self (t.drop (i + 1))
        .ok (.BinOp l '+' r)
      | none =>
        match findCh '(' t with
        | some i =>
          let name := String.mk (t.take i)
          -- `&s[idx+1..s.len()-1]` panics when `(` is the last character
          if i + 2 ≤ t.length then
            let args := (t.take (t.length - 1)).drop (i + 1)
            if args = [] then .ok (.Call name [])
            else do
              let vs ← parseArgsWith self (splitOnChar ',' args)
              .ok (.Call name vs)
          else .crash
        | none => .ok (.Var (String.mk t))

def parseExprF : Nat → List Char → Res Expr
  | 0, _ => .fuel
  | f + 1, s => parseExprStep (parseExprF f) s

/-- `fn parse_expr`.  Every recursive call of the source strictly shrinks the
string, so `length + 1` units of fuel always suffice (`parseExprF_fuel_inv`). -/
def parse_expr (s : List Char) : Res Expr := parseExprF (s.length + 1) s

-- ===== Type name parser (`fn parse_type`) =====
def parseTypeF : Nat → List Char → Ty
  | 0, _ => .Void
  | f + 1, s =>
    let t := s.map Char.toLower
    if t = "int".toList then .Int
    else if t = "float".toList then .Float
    else if t = "bool".toList then .Bool
    else if t = "str".toList ∨ t = "string".toList then .Str
    else if startsWithCh "list<".toList t ∧ t.getLast? = some '>' then
      .List (parseTypeF f ((t.drop 5).dropLast))
    else .Void

/-- `fn parse_type`.  Each recursive call removes six characters
(`list<` and `>`), so `length + 1` units of fuel always suffice. -/
def parse_type (s : List Char) : Ty := parseTypeF (s.length + 1) s

-- ===== Statement parser (`fn parse_stmt`) =====
/-- The `var <name>:<Type> = <expr>` branch.  `none` means the shape did not
match (no `=` or no `:`), in which case `parse_stmt` falls through to the
later branches exactly as the Rust `if let` chain does. -/
def parseVarLine (line : List Char) : Option (Res Stmt) :=
  if startsWithCh "var ".toList line then
    match splitOnceCh '=' (line.drop 4) with
    | none => none
    | some (left, ex) =>
      match splitOnceCh ':' (trimChars left) with
      | none => none
      | some (name, tystr) =>
        some (do
          let e ← parse_expr (trimChars ex)
          .ok (.VarDef (String.mk (trimChars name)) (parse_type (trimChars tystr)) e))
  else none

/-- The `print…` branch (the caller has already checked the `print` prefix,
which in Rust always returns from `parse_stmt` once it matches). -/
def parsePrintLine (line : List Char) : Res Stmt :=
  let r := line.drop 5
  match findCh '(' r with
  | some i =>
    if i + 2 ≤ r.length then do
      let args ← parseArgsWith parse_expr (splitOnChar ',' ((r.take (r.length - 1)).drop (i + 1)))
      .ok (.Print args)
    else .crash  -- `&r[i+1..r.len()-1]` panics when `(` is the last character
  | none => do
    let args ← parseArgsWith parse_expr (splitOnChar ',' (trimChars r))
    .ok (.Print args)

/-- `p.split_once(':').unwrap()` over the comma-separated parameter parts. -/
def parseFnParams : List (List Char) → Res (List (String × Ty))
  | [] => .ok []
  | p :: ps =>
    match splitOnceCh ':' p with
    | none => .crash
    | some (n, t) => do
      let rest ← parseFnParams ps
      .ok ((String.mk n, parse_type t) :: rest)

/-- The header of `fn name(p:Type,…)->Type`. -/
def parseFnHeader (line : List Char) : Res (String × List (String × Ty) × Ty) :=
  let after := line.drop 3
  match findCh '(' after with
  | none => .crash  -- `after.find('(').unwrap()`
  | some i1 =>
    match findCh ')' after with
    | none => .crash  -- `after.find(')').unwrap()`
    | some i2 =>
      let name := String.mk (after.take i1)
      if i1 + 1 ≤ i2 then do
        let parts := ((splitOnChar ',' ((after.take i2).drop (i1 + 1))).map trimChars).filter (· ≠ [])
        let params ← parseFnParams parts
        let ret := match findSub ")->".toList after with
          | some rp => parse_type (trimChars (after.drop (rp + 3)))
          | none => Ty.Void
        .ok (name, params, ret)
      else .crash  -- `&after[i1+1..i2]` panics when `)` comes before `(`

/-- The body-collection loop of the block constructs: consume one line at a
time until a stop line (`else` / `end`) or the end of input, parsing each
remaining slice with `ps` and keeping only its statement (the Rust loops
advance `idx` by 1 regardless of how many lines the inner parse consumed). -/
def parseBodyWith (ps : List (List Char) → Res (Stmt × Nat)) (stops : List (List Char)) :
    List (List Char) → Res (List Stmt × Nat)
  | [] => .ok ([], 0)
  | l :: ls =>
    if trimChars l ∈ stops then .ok ([], 0)
    else do
      let (s, _) ← ps (l :: ls)
      let (b, n) ← parseBodyWith ps stops ls
      .ok (s :: b, n + 1)

/-- `fn parse_stmt`: one statement from the remaining lines plus the number of
lines consumed.  Fuel decreases only when entering a block body, so the
nesting depth bounds the fuel needed. -/
def parse_stmt : Nat → List (List Char) → Res (Stmt × Nat)
  | 0, _ => .fuel
  | fu + 1, lines =>
    match lines with
    | [] => .crash  -- `lines[0]` panics on an empty slice; callers never pass one
    | line :: rest =>
      if line = "exit".toList ∨ line = "quit".toList then .ok (.Exit, 1)
      else if line = "clear".toList then .ok (.Clear, 1)
      else if line = "help".toList then .ok (.Help, 1)
      else if startsWithCh "setshell ".toList line then
        .ok (.SetShell (String.mk (line.drop 9)), 1)
      else
        match parseVarLine line with
        | some r => do
          let s ← r
          .ok (s, 1)
        | none =>
          if startsWithCh "print".toList line then do
            let s ← parsePrintLine line
            .ok (s, 1)
          else if startsWithCh "shell ".toList line then
            .ok (.Shell (tokenize (line.drop 6)), 1)
          else if startsWithCh "if ".toList line then
            match findSub "then".toList line with
            | none => .crash  -- `line.find("then").unwrap()`
            | some i => do
              let cond ← parse_expr (trimChars ((line.take i).drop 3))
              let (thenB, n1) ← parseBodyWith (parse_stmt fu) ["else".toList, "end".toList] rest
              match rest.drop n1 with
              | l :: rest2 =>
                if trimChars l = "else".toList then do
                  let (elseB, n2) ← parseBodyWith (parse_stmt fu) ["end".toList] rest2
                  .ok (.If cond thenB elseB, n1 + n2 + 3)
                else .ok (.If cond thenB [], n1 + 2)
              | [] => .ok (.If cond thenB [], n1 + 2)
          else if startsWithCh "while ".toList line then
            match findSub "do".toList line with
            | none => .crash  -- `line.find("do").unwrap()`
            | some i => do
              let cond ← parse_expr (trimChars ((line.take i).drop 6))
              let (body, n) ← parseBodyWith (parse_stmt fu) ["end".toList] rest
              .ok (.While cond body, n + 2)
          else if startsWithCh "fn ".toList line then do
            let (name, params, ret) ← parseFnHeader line
            let (body, n) ← parseBodyWith (parse_stmt fu) ["end".toList] rest
            .ok (.FuncDef name params ret body, n + 2)
          else do
            let e ← parse_expr line
            .ok (.ExprStmt e, 1)

-- ===== Program parser (`fn parse_program`) =====
/-- `src.lines().map(str::trim).filter(..)`: trimmed, non-empty, non-comment. -/
def progLines (src : String) : List (List Char) :=
  ((splitOnChar '\n' src.toList).map trimChars).filter
    (fun l => !l.isEmpty && !startsWithCh ['#'] l)

/-- The `while i < lines.len()` loop of `parse_program`.  Every statement
consumes at least one line, so `(l :: ls).drop cons = ls.drop (cons - 1)`. -/
def parseProgWith (ps : List (List Char) → Res (Stmt × Nat)) : Nat → List (List Char) → Res (List Stmt)
  | _, [] => .ok []
  | 0, _ :: _ => .fuel
  | fu + 1, l :: ls => do
    let (s, cons) ← ps (l :: ls)
    let others ← parseProgWith ps fu (ls.drop (cons - 1))
    .ok (s :: others)

/-- `fn parse_program`.  One unit of fuel per source line always suffices. -/
def parse_program (src : String) : Res (List Stmt) :=
  let lines := progLines src
  parseProgWith (parse_stmt (lines.length + 1)) (lines.length + 1) lines

-- ===== Type checker (`fn type_check_expr`, `fn type_check_stmt`) =====
def type_check_expr : Expr → Context → Except String Ty
  | .Literal v, _ => .ok v.get_type
  | .Var n, ctx =>
    match mapGet n ctx.types with
    | some t => .ok t
    | none => .error ("Unknown var " ++ n)
  | .BinOp a _ b, ctx => do
    let ta ← type_check_expr a ctx
    let tb ← type_check_expr b ctx
    if ta = tb then .ok ta else .error "Type mismatch in binop"
  | .Call _ _, _ => .error "Function calls not yet typed"

/-- The `for expr in exprs { type_check_expr(expr, ctx)?; }` loop of the
`Print` arm (expression checking never mutates the context). -/
def checkExprList : List Expr → Context → Option String
  | [], _ => none
  | e :: rest, ctx =>
    match type_check_expr e ctx with
    | .error m => some m
    | .ok _ => checkExprList rest ctx

mutual
/-- `fn type_check_stmt`.  The Rust function takes `&mut Context`; an error
return leaves all mutations already performed in place, so the model returns
the (possibly partially mutated) context together with the optional error. -/
def type_check_stmt : Stmt → Context → Context × Option String
  | .VarDef name ty expr, ctx =>
    match type_check_expr expr ctx with
    | .error e => (ctx, some e)
    | .ok et =>
      if et = ty then ({ ctx with types := mapInsert name ty ctx.types }, none)
      else (ctx, some ("Type mismatch for " ++ name ++ ": expected " ++ tyDebug ty ++ ", got " ++ tyDebug et))
  | .Print exprs, ctx => (ctx, checkExprList exprs ctx)
  | .Shell _, ctx => (ctx, none)
  | .SetShell _, ctx => (ctx, none)
  | .If cond t e, ctx =>
    match type_check_expr cond ctx with
    | .error m => (ctx, some m)
    | .ok ct =>
      if ct = Ty.Bool then
        match type_check_block t ctx with
        | (c1, some m) => (c1, some m)
        | (c1, none) => type_check_block e c1
      else (ctx, some "Condition must be bool")
  | .While cond body, ctx =>
    match type_check_expr cond ctx with
    | .error m => (ctx, some m)
    | .ok ct =>
      if ct = Ty.Bool then type_check_block body ctx
      else (ctx, some "While cond must be bool")
  | .FuncDef name params ret body, ctx =>
    let prev := ctx.types
    match type_check_block body { ctx with types := params.foldl (fun m p => mapInsert p.1 p.2 m) ctx.types } with
    | (c1, some m) => (c1, some m)
    | (c1, none) =>
      ({ c1 with types := prev, funcs := mapInsert name (params, ret, body) c1.funcs }, none)
  | .Exit, ctx => (ctx, none)
  | .Clear, ctx => (ctx, none)
  | .Help, ctx => (ctx, none)
  | .ExprStmt e, ctx =>
    match type_check_expr e ctx with
    | .error m => (ctx, some m)
    | .ok _ => (ctx, none)

/-- The `for s in … { type_check_stmt(s,ctx)?; }` loops. -/
def type_check_block : List Stmt → Context → Context × Option String
  | [], ctx => (ctx, none)
  | s :: rest, ctx =>
    match type_check_stmt s ctx with
    | (c1, some e) => (c1, some e)
    | (c1, none) => type_check_block rest c1
end

-- ===== Evaluator (`fn eval_expr`) =====
def eval_expr : Expr → Context → Option Value
  | .Literal v, _ => some v
  | .Var n, ctx => mapGet n ctx.vars
  | .BinOp a op b, ctx => do
    let x ← eval_expr a ctx
    let y ← eval_expr b ctx
    match x, y, op with
    | .Int p, .Int q, '+' => some (.Int (p + q))
    | .Int p, .Int q, '-' => some (.Int (p - q))
    | .Int p, .Int q, '*' => some (.Int (p * q))
    | .Int p, .Int q, '/' => some (.Int (p.tdiv q))
    | .Float p, .Float q, '+' => some (.Float (p + q))
    | .Float p, .Float q, '-' => some (.Float (p - q))
    | .Float p, .Float q, '*' => some (.Float (p * q))
    | .Float p, .Float q, '/' => some (.Float (p / q))
    | _, _, _ => none
  | .Call _ _, _ => none

-- ===== Executor (`fn exec_stmt`) =====
/-- The `for s in block { if exec_stmt(s,ctx) { return true; } }` loop over an
abstract per-statement executor `step`. -/
def runBlockWith (step : Stmt → Context → Res (Bool × Context × List Ev)) :
    List Stmt → Context → Res (Bool × Context × List Ev)
  | [], ctx => .ok (false, ctx, [])
  | s :: rest, ctx => do
    let (stop, c1, o1) ← step s ctx
    if stop then .ok (true, c1, o1)
    else do
      let (st, c2, o2) ← runBlockWith step rest c1
      .ok (st, c2, o1 ++ o2)

/-- The `while matches!(eval_expr(cond,ctx),Some(Value::Bool(true)))` loop,
fueled by the number of iterations still allowed. -/
def whileLoopWith (step : Stmt → Context → Res (Bool × Context × List Ev)) :
    Nat → Expr → List Stmt → Context → Res (Bool × Context × List Ev)
  | 0, _, _, _ => .fuel
  | f + 1, cond, body, ctx =>
    match eval_expr cond ctx with
    | some (.Bool true) => do
      let (stop, c1, o1) ← runBlockWith step body ctx
      if stop then .ok (true, c1, o1)
      else do
        let (st, c2, o2) ← whileLoopWith step f cond body c1
        .ok (st, c2, o1 ++ o2)
    | _ => .ok (false, ctx, [])

/-- `es.iter().map(|e| eval_expr(e,ctx).unwrap().to_string())`: the first
argument that evaluates to no value makes the whole `Print` panic. -/
def evalPrintArgs : List Expr → Context → Option (List String)
  | [], _ => some []
  | e :: rest, ctx => do
    let v ← eval_expr e ctx
    let others ← evalPrintArgs rest ctx
    some (dispValue v :: others)

/-- The fixed text printed by `help`. -/
def helpText : String :=
  "help:\n var x:Type = expr\n print(expr,…)\n shell cmd…\n setshell /bin/bash\n if…then…else…end\n while…do…end\n fn name(p:Type,…)->Type…end\n exit, clear, help"

/-- `fn exec_stmt`: type-check the statement first (reporting a type error to
stderr and skipping execution), then execute, returning the "caller should
stop" flag, the mutated context, and the emitted events. -/
def exec_stmt : Nat → Stmt → Context → Res (Bool × Context × List Ev)
  | 0, _, _ => .fuel
  | f + 1, stmt, ctx =>
    match type_check_stmt stmt ctx with
    | (c1, some e) => .ok (false, c1, [.errLine ("Type error: " ++ e)])
    | (c1, none) =>
      match stmt with
      | .VarDef n _ e =>
        match eval_expr e c1 with
        | some v => .ok (false, { c1 with vars := mapInsert n v c1.vars }, [])
        | none => .ok (false, c1, [])
      | .Print es =>
        match evalPrintArgs es c1 with
        | some strs => .ok (false, c1, [.outLine (String.intercalate " " strs)])
        | none => .crash  -- `.unwrap()` on a `None` evaluation panics
      | .Shell cmds =>
        if cmds.isEmpty then .ok (false, c1, [])
        else .ok (false, c1, [.shellCall cmds])
      | .SetShell sh => .ok (false, { c1 with shell := sh }, [])
      | .If cond t e =>
        match eval_expr cond c1 with
        | some (.Bool true) => runBlockWith (exec_stmt f) t c1
        | _ => runBlockWith (exec_stmt f) e c1
      | .While cond body => whileLoopWith (exec_stmt f) f cond body c1
      | .FuncDef _ _ _ _ => .ok (false, c1, [])
      | .Exit => .ok (true, c1, [])
      | .Clear => .ok (false, c1, [.outRaw "\x1B[2J\x1B[1;1H"])
      | .Help => .ok (false, c1, [.outLine helpText])
      | .ExprStmt e =>
        let _ := eval_expr e c1
        .ok (false, c1, [])

def exec_block (fuel : Nat) (l : List Stmt) (ctx : Context) : Res (Bool × Context × List Ev) :=
  runBlockWith (exec_stmt fuel) l ctx

def exec_while (fuel : Nat) (cond : Expr) (body : List Stmt) (ctx : Context) :
    Res (Bool × Context × List Ev) :=
  whileLoopWith (exec_stmt fuel) fuel cond body ctx

/-- `fn run_script` after a successful file read: parse the program and
execute statement by statement, stopping early when a statement signals it. -/
def run_program (fuel : Nat) (src : String) : Res (Bool × Context × List Ev) := do
  let stmts ← parse_program src
  exec_block fuel stmts Context.new

-- ===== Predicates used by the claims =====
/-- A statement with no control flow (no `If`, no `While`). -/
def noControlFlow : Stmt → Bool
  | .If _ _ _ => false
  | .While _ _ => false
  | _ => true

/-- Every binary operation inside the expression carries the operator `+`. -/
inductive OnlyPlus : Expr → Prop where
  | lit (v : Value) : OnlyPlus (.Literal v)
  | var (n : String) : OnlyPlus (.Var n)
  | binop (l r : Expr) : OnlyPlus l → OnlyPlus r → OnlyPlus (.BinOp l '+' r)
  | call (n : String) (args : List Expr) :
      (∀ a ∈ args, OnlyPlus a) → OnlyPlus (.Call n args)

-- ===== Basic lemmas about the embedding =====
@[simp] theorem res_bind_pure_ok (a : α) (f : α → Res β) : (Res.ok a >>= f) = f a := rfl

@[simp] theorem res_bind_on_crash (f : α → Res β) : ((Res.crash : Res α) >>= f) = Res.crash := rfl

@[simp] theorem res_bind_on_fuel (f : α → Res β) : ((Res.fuel : Res α) >>= f) = Res.fuel := rfl

@[simp] theorem res_pure_eq_ok (a : α) : (pure a : Res α) = Res.ok a := rfl

theorem dropWhile_length_le (p : Char → Bool) (l : List Char) :
    (List.dropWhile p l).length ≤ l.length := by
  induction l with
  | nil => simp
  | cons x xs ih =>
    rw [List.dropWhile_cons]
    split
    · exact Nat.le_trans ih (Nat.le_succ _)
    · exact Nat.le_refl _

theorem trimChars_length_le (s : List Char) : (trimChars s).length ≤ s.length := by
  unfold trimChars
  calc ((s.dropWhile Char.isWhitespace).reverse.dropWhile Char.isWhitespace).reverse.length
      = ((s.dropWhile Char.isWhitespace).reverse.dropWhile Char.isWhitespace).length :=
        List.length_reverse _
    _ ≤ (s.dropWhile Char.isWhitespace).reverse.length := dropWhile_length_le _ _
    _ = (s.dropWhile Char.isWhitespace).length := List.length_reverse _
    _ ≤ s.length := dropWhile_length_le _ _

theorem findCh_lt (c : Char) : ∀ (s : List Char) (i : Nat), findCh c s = some i → i < s.length := by
  intro s
  induction s with
  | nil => intro i h; simp [findCh] at h
  | cons x xs ih =>
    intro i h
    rw [findCh] at h
    split at h
    · cases h; simp
    · cases hf : findCh c xs with
      | none => rw [hf] at h; simp at h
      | some j =>
        rw [hf] at h
        simp only [Option.map_some', Option.some.injEq] at h
        subst h
        have := ih j hf
        simp only [List.length_cons]
        omega

theorem splitOnChar_length_le (c : Char) :
    ∀ (l p : List Char), p ∈ splitOnChar c l → p.length ≤ l.length := by
  intro l
  induction l with
  | nil =>
    intro p hp
    simp only [splitOnChar, List.mem_singleton] at hp
    subst hp; simp
  | cons x xs ih =>
    intro p hp
    rw [splitOnChar] at hp
    split at hp
    · rcases List.mem_cons.mp hp with h | h
      · subst h; simp
      · exact Nat.le_trans (ih p h) (Nat.le_succ _)
    · cases hsp : splitOnChar c xs with
      | nil => rw [hsp] at hp; simp only [List.mem_singleton] at hp; subst hp; simp
      | cons q qs =>
        rw [hsp] at hp
        rcases List.mem_cons.mp hp with h | h
        · subst h
          have : q.length ≤ xs.length := ih q (by rw [hsp]; exact List.mem_cons_self _ _)
          simp only [List.length_cons]
          omega
        · have : p ∈ splitOnChar c xs := by rw [hsp]; exact List.mem_cons_of_mem _ h
          exact Nat.le_trans (ih p this) (Nat.le_succ _)

theorem parseArgsWith_congr (f g : List Char → Res Expr) :
    ∀ l : List (List Char), (∀ p ∈ l, f (trimChars p) = g (trimChars p)) →
      parseArgsWith f l = parseArgsWith g l := by
  intro l
  induction l with
  | nil => intro _; rfl
  | cons p ps ih =>
    intro h
    simp only [parseArgsWith]
    rw [h p (List.mem_cons_self _ _), ih (fun q hq => h q (List.mem_cons_of_mem _ hq))]

/-- The recursion structure of `parse_expr` only ever calls itself on strictly
shorter strings, so any two functions that agree below the current length
produce the same one-layer result. -/
theorem parseExprStep_congr (f g : List Char → Res Expr) (s : List Char)
    (h : ∀ p : List Char, p.length < s.length → f p = g p) :
    parseExprStep f s = parseExprStep g s := by
  have ht := trimChars_length_le s
  simp only [parseExprStep]
  split
  · rfl
  · split
    · rfl
    · split
      · rfl
      · split
        · rfl
        · split
          · rfl
          · split
            · next i hplus =>
              have hi := findCh_lt '+' _ i hplus
              rw [h ((trimChars s).take i)
                    (by simp only [List.length_take]; omega),
                  h ((trimChars s).drop (i + 1))
                    (by simp only [List.length_drop]; omega)]
            · split
              · next i hpar =>
                have hi := findCh_lt '(' _ i hpar
                split
                · split
                  · rfl
                  · rw [parseArgsWith_congr f g _ (fun p hp => by
                      have h1 := splitOnChar_length_le ',' _ p hp
                      have h2 := trimChars_length_le p
                      apply h
                      simp only [List.length_drop, List.length_take] at h1
                      omega)]
                · rfl
              · rfl

theorem parseExprF_fuel_inv : ∀ (f g : Nat) (s : List Char), s.length < f → s.length < g →
    parseExprF f s = parseExprF g s := by
  intro f
  induction f with
  | zero => intro g s hf; omega
  | succ f ih =>
    intro g s hf hg
    cases g with
    | zero => omega
    | succ g =>
      show parseExprStep (parseExprF f) s = parseExprStep (parseExprF g) s
      exact parseExprStep_congr _ _ s (fun p hp => ih g p (by omega) (by omega))

/-- Sufficient fuel computes the same result as the canonical wrapper. -/
theorem parse_expr_fuel (f : Nat) (s : List Char) (h : s.length < f) :
    parseExprF f s = parse_expr s :=
  parseExprF_fuel_inv f (s.length + 1) s h (Nat.lt_succ_self _)

theorem parseArgsWith_onlyPlus (pe : List Char → Res Expr)
    (hp : ∀ p e, pe p = .ok e → OnlyPlus e) :
    ∀ (ps : List (List Char)) (es : List Expr),
      parseArgsWith pe ps = .ok es → ∀ a ∈ es, OnlyPlus a := by
  intro ps
  induction ps with
  | nil =>
    intro es h a ha
    simp only [parseArgsWith, Res.ok.injEq] at h
    subst h
    simp at ha
  | cons p ps ih =>
    intro es h a ha
    simp only [parseArgsWith] at h
    cases he : pe (trimChars p) with
    | ok e0 =>
      rw [he] at h
      simp only [res_bind_pure_ok] at h
      cases hrest : parseArgsWith pe ps with
      | ok es0 =>
        rw [hrest] at h
        simp only [res_bind_pure_ok, Res.ok.injEq] at h
        subst h
        rcases List.mem_cons.mp ha with h' | h'
        · subst h'; exact hp _ _ he
        · exact ih es0 hrest a h'
      | crash => rw [hrest] at h; simp at h
      | fuel => rw [hrest] at h; simp at h
    | crash => rw [he] at h; simp at h
    | fuel => rw [he] at h; simp at h

theorem parseExprStep_onlyPlus (self : List Char → Res Expr)
    (hs : ∀ p e, self p = .ok e → OnlyPlus e) :
    ∀ (s : List Char) (e : Expr), parseExprStep self s = .ok e → OnlyPlus e := by
  intro s e h
  simp only [parseExprStep] at h
  split at h
  · split at h
    · cases h; exact OnlyPlus.lit _
    · simp at h
  · split at h
    · cases h; exact OnlyPlus.lit _
    · split at h
      · cases h; exact OnlyPlus.lit _
      · split at h
        · cases h; exact OnlyPlus.lit _
        · split at h
          · cases h; exact OnlyPlus.lit _
          · split at h
            · cases hl : self ((trimChars s).take _) with
              | ok l =>
                rw [hl] at h
                simp only [res_bind_pure_ok] at h
                cases hr : self ((trimChars s).drop _) with
                | ok r =>
                  rw [hr] at h
                  simp only [res_bind_pure_ok, Res.ok.injEq] at h
                  subst h
                  exact OnlyPlus.binop _ _ (hs _ _ hl) (hs _ _ hr)
                | crash => rw [hr] at h; simp at h
                | fuel => rw [hr] at h; simp at h
              | crash => rw [hl] at h; simp at h
              | fuel => rw [hl] at h; simp at h
            · split at h
              · split at h
                · split at h
                  · cases h
                    exact OnlyPlus.call _ _ (by simp)
                  · cases hvs : parseArgsWith self
                        (splitOnChar ',' (((trimChars s).take ((trimChars s).length - 1)).drop _)) with
                    | ok vs =>
                      rw [hvs] at h
                      simp only [res_bind_pure_ok, Res.ok.injEq] at h
                      subst h
                      exact OnlyPlus.call _ _ (parseArgsWith_onlyPlus self hs _ _ hvs)
                    | crash => rw [hvs] at h; simp at h
                    | fuel => rw [hvs] at h; simp at h
                · simp at h
              · cases h; exact OnlyPlus.var _

theorem parseExprF_onlyPlus : ∀ (f : Nat) (s : List Char) (e : Expr),
    parseExprF f s = .ok e → OnlyPlus e := by
  intro f
  induction f with
  | zero => intro s e h; simp [parseExprF] at h
  | succ f ih => exact fun s e h => parseExprStep_onlyPlus _ (fun p e' h' => ih p e' h') s e h

-- ===== Claims =====
/-- C1: the two-statement program `var x:int = 2 + 3` then `print(x)`, run
from a fresh `Context`, parses, type-checks and evaluates successfully
(no crash, no type error, no stop), and its sole observable output is the
single stdout line `5`. -/
theorem C1_run_var_print :
    run_program 8 "var x:int = 2 + 3\nprint(x)" =
      .ok (false,
        { vars := [("x", Value.Int 5)], types := [("x", Ty.Int)], funcs := [],
          shell := "/bin/sh" },
        [Ev.outLine "5"]) := rfl

/-- C2: executing a `VarDef` whose initializer's inferred type differs from
the declared type reports the type-mismatch error on stderr and returns the
context unchanged — in particular `vars` is unchanged and no binding for the
declared name is created. -/
theorem C2_vardef_mismatch (f : Nat) (n : String) (ty : Ty) (e : Expr) (ctx : Context) (et : Ty)
    (h1 : type_check_expr e ctx = .ok et) (h2 : et ≠ ty) :
    exec_stmt (f + 1) (.VarDef n ty e) ctx =
      .ok (false, ctx,
        [.errLine ("Type error: " ++ ("Type mismatch for " ++ n ++ ": expected " ++
          tyDebug ty ++ ", got " ++ tyDebug et))]) := by
  simp only [exec_stmt, type_check_stmt, h1]
  rw [if_neg h2]

/-- C2 witness: `var y:int = "hi"` from a fresh context reports the mismatch
and leaves `vars` empty. -/
theorem C2_vardef_mismatch_witness :
    exec_stmt 1 (.VarDef "y" Ty.Int (.Literal (.Str "hi"))) Context.new =
      .ok (false, Context.new,
        [.errLine "Type error: Type mismatch for y: expected Int, got Str"]) := by
  have h := C2_vardef_mismatch 0 "y" Ty.Int (.Literal (.Str "hi")) Context.new Ty.Str rfl
    (by decide)
  exact h

/-- C3 counterexample: an empty `Shell` statement does NOT signal "stop" the
way `Exit` does — `exec_stmt` returns `false` for `Shell []` and `true` for
`Exit`. -/
theorem C3_cex_empty_shell_no_stop :
    exec_stmt 1 (Stmt.Shell []) Context.new = .ok (false, Context.new, []) ∧
    exec_stmt 1 Stmt.Exit Context.new = .ok (true, Context.new, []) :=
  ⟨rfl, rfl⟩

/-- C3 amended: `Shell` never signals "stop".  With an empty argument list it
returns early without dispatching anything; with a non-empty list it
dispatches the first token as an external command with the remaining tokens
as arguments, and also returns `false`. -/
theorem C3_shell_amended (f : Nat) (cmds : List String) (ctx : Context) :
    exec_stmt (f + 1) (.Shell cmds) ctx =
      .ok (false, ctx, if cmds.isEmpty then [] else [Ev.shellCall cmds]) := by
  cases cmds <;> rfl

/-- C4 counterexample: type-checking the `FuncDef` `fn f(p:int)` whose body
`var z:int = q` fails to check (unknown `q`) leaves the parameter's type in
`types` — the snapshot is NOT restored, although `types` was empty before —
and records nothing in `funcs`. -/
theorem C4_cex_funcdef_leak :
    (type_check_stmt (.FuncDef "f" [("p", Ty.Int)] Ty.Void [.VarDef "z" Ty.Int (.Var "q")])
        Context.new).1.types = [("p", Ty.Int)] ∧
    (type_check_stmt (.FuncDef "f" [("p", Ty.Int)] Ty.Void [.VarDef "z" Ty.Int (.Var "q")])
        Context.new).2 = some "Unknown var q" ∧
    Context.new.types = [] ∧
    mapGet "f" (type_check_stmt (.FuncDef "f" [("p", Ty.Int)] Ty.Void [.VarDef "z" Ty.Int (.Var "q")])
        Context.new).1.funcs = none :=
  ⟨rfl, rfl, rfl, rfl⟩

/-- C4 amended: for a `FuncDef` whose body type-checks successfully after the
parameters are installed over a snapshot of `types`, the snapshot is restored
(`types` returns to its pre-check state, so parameter types do not leak) and
the signature+body is recorded in `funcs`; when the body check fails, the
error propagates with the snapshot NOT restored and `funcs` not updated. -/
theorem C4_funcdef_amended (name : String) (params : List (String × Ty)) (ret : Ty)
    (body : List Stmt) (ctx c1 : Context) :
    (type_check_block body
        { ctx with types := params.foldl (fun m p => mapInsert p.1 p.2 m) ctx.types } =
          (c1, none) →
      type_check_stmt (.FuncDef name params ret body) ctx =
        ({ c1 with types := ctx.types, funcs := mapInsert name (params, ret, body) c1.funcs },
          none)) ∧
    (∀ msg, type_check_block body
        { ctx with types := params.foldl (fun m p => mapInsert p.1 p.2 m) ctx.types } =
          (c1, some msg) →
      type_check_stmt (.FuncDef name params ret body) ctx = (c1, some msg)) := by
  constructor
  · intro h
    simp only [type_check_stmt, h]
  · intro msg h
    simp only [type_check_stmt, h]

/-- C4 witness: a concrete `FuncDef` with an empty body checks successfully,
restores `types` to its pre-check (empty) state and records the signature in
`funcs`. -/
theorem C4_funcdef_witness :
    type_check_stmt (.FuncDef "g" [("p", Ty.Int)] Ty.Void []) Context.new =
      ({ vars := [], types := [], funcs := [("g", ([("p", Ty.Int)], Ty.Void, []))],
         shell := "/bin/sh" }, none) :=
  (C4_funcdef_amended "g" [("p", Ty.Int)] Ty.Void [] Context.new
    { Context.new with types := [("p", Ty.Int)] }).1 rfl

/-- C5: for an `If` statement that passes type-checking (the check validates
the condition against `Bool` and both branches unconditionally, mutating the
context to `c1`), evaluation selects the "then" branch exactly when the
condition evaluates to `Bool(true)`; any other result (false, non-boolean, or
no value) selects the "else" branch; the selected branch runs as the block
loop `exec_block` (statements in order, an inner "stop" propagating out), so
the untaken branch's runtime effects never occur.  When type-checking fails,
only the error is reported and neither branch executes. -/
theorem C5_if_semantics (f : Nat) (cond : Expr) (t e : List Stmt) (ctx : Context) :
    (∀ c1, type_check_stmt (.If cond t e) ctx = (c1, none) →
      ((eval_expr cond c1 = some (.Bool true) →
          exec_stmt (f + 1) (.If cond t e) ctx = exec_block f t c1) ∧
       (eval_expr cond c1 ≠ some (.Bool true) →
          exec_stmt (f + 1) (.If cond t e) ctx = exec_block f e c1))) ∧
    (∀ c1 msg, type_check_stmt (.If cond t e) ctx = (c1, some msg) →
      exec_stmt (f + 1) (.If cond t e) ctx =
        .ok (false, c1, [.errLine ("Type error: " ++ msg)])) := by
  constructor
  · intro c1 hchk
    constructor
    · intro hev
      simp only [exec_stmt, hchk, hev]
      rfl
    · intro hne
      simp only [exec_stmt, hchk]
      cases hev : eval_expr cond c1 with
      | none => rfl
      | some v =>
        cases v with
        | Int n => rfl
        | Float x => rfl
        | Str s => rfl
        | List xs => rfl
        | Bool b =>
          cases b with
          | false => rfl
          | true => exact absurd hev hne
  · intro c1 msg hchk
    simp only [exec_stmt, hchk]

/-- C5 witness: `If(true, [Exit], [Clear])` from a fresh context runs exactly
the "then" block. -/
theorem C5_if_witness :
    exec_stmt 2 (.If (.Literal (.Bool true)) [Stmt.Exit] [Stmt.Clear]) Context.new =
      exec_block 1 [Stmt.Exit] Context.new :=
  ((C5_if_semantics 1 (.Literal (.Bool true)) [Stmt.Exit] [Stmt.Clear] Context.new).1
    Context.new rfl).1 rfl

/-- C6: for a `While` statement that passes type-checking (context mutated to
`c1`): a fresh evaluation of the condition that is not exactly `Bool(true)`
(false, non-boolean, or no value) ends the loop with zero body executions;
when the condition evaluates to `Bool(true)` the body runs once as a block —
if any body statement signals "stop" the whole loop stops immediately and the
signal propagates to the caller; otherwise the loop repeats from the updated
context with the iteration's output prepended. -/
theorem C6_while_semantics (f : Nat) (cond : Expr) (body : List Stmt) (ctx : Context) :
    ∀ c1, type_check_stmt (.While cond body) ctx = (c1, none) →
      ((eval_expr cond c1 ≠ some (.Bool true) →
          exec_stmt (f + 2) (.While cond body) ctx = .ok (false, c1, [])) ∧
       (eval_expr cond c1 = some (.Bool true) →
         (∀ c2 o1, exec_block (f + 1) body c1 = .ok (true, c2, o1) →
            exec_stmt (f + 2) (.While cond body) ctx = .ok (true, c2, o1)) ∧
         (∀ c2 o1, exec_block (f + 1) body c1 = .ok (false, c2, o1) →
            exec_stmt (f + 2) (.While cond body) ctx =
              Res.bind (whileLoopWith (exec_stmt (f + 1)) f cond body c2)
                (fun r => .ok (r.1, r.2.1, o1 ++ r.2.2))))) := by
  intro c1 hchk
  constructor
  · intro hne
    simp only [exec_stmt, hchk]
    show whileLoopWith (exec_stmt (f + 1)) (f + 1) cond body c1 = .ok (false, c1, [])
    simp only [whileLoopWith]
  · intro hev
    constructor
    · intro c2 o1 hblk
      simp only [exec_stmt, hchk]
      show whileLoopWith (exec_stmt (f + 1)) (f + 1) cond body c1 = .ok (true, c2, o1)
      simp only [whileLoopWith, hev]
      simp only [exec_block] at hblk
      rw [hblk]
      rfl
    · intro c2 o1 hblk
      simp only [exec_stmt, hchk]
      show whileLoopWith (exec_stmt (f + 1)) (f + 1) cond body c1 =
        Res.bind (whileLoopWith (exec_stmt (f + 1)) f cond body c2)
          (fun r => .ok (r.1, r.2.1, o1 ++ r.2.2))
      simp only [whileLoopWith, hev]
      simp only [exec_block] at hblk
      rw [hblk]
      rfl

/-- C6 witness: a `While` with condition `false` runs its body zero times. -/
theorem C6_while_witness :
    exec_stmt 2 (.While (.Literal (.Bool false)) []) Context.new =
      .ok (false, Context.new, []) :=
  ((C6_while_semantics 0 (.Literal (.Bool false)) [] Context.new) Context.new rfl).1
    (by intro h; cases h)

/-- C7: a `List` value reports type `List(T)` where `T` is the type of its
element at index 0 at the moment `get_type` is called; an empty list reports
`List(Void)`. -/
theorem C7_list_get_type :
    (∀ (xs : List Value) (v : Value), xs[0]? = some v →
      Value.get_type (.List xs) = Ty.List v.get_type) ∧
    Value.get_type (.List []) = Ty.List Ty.Void := by
  constructor
  · intro xs v h
    cases xs with
    | nil => simp at h
    | cons a l =>
      simp only [List.getElem?_cons_zero, Option.some.injEq] at h
      subst h
      rfl
  · rfl

/-- C7 witness: a singleton int list reports `List(Int)`. -/
theorem C7_list_get_type_witness :
    Value.get_type (.List [.Int 3]) = Ty.List Ty.Int :=
  C7_list_get_type.1 [.Int 3] (.Int 3) rfl

/-- C8 counterexample: the input `(+` is not matched as a quoted string,
boolean keyword, float, or integer literal and contains `+`, yet the parser
does not return a `BinOp`: the recursive parse of the left piece `(` panics
on the slice `&s[idx+1..s.len()-1]`, so the whole parse crashes. -/
theorem C8_cex_plus_split_crash :
    parse_expr "(+".toList = Res.crash ∧
    findCh '+' (trimChars "(+".toList) = some 1 ∧
    parseI64 (trimChars "(+".toList) = none :=
  ⟨rfl, rfl, rfl⟩

/-- C8 amended: for every input string that is not matched as a quoted
string, boolean keyword, float, or integer literal and that contains a `+`,
the parser splits the (trimmed) string at the first `+`, recursively parses
the left and right pieces, and — when both recursive parses return — combines
them into a `BinOp` with operator `+` (a piece can itself panic, e.g. a lone
`(`, in which case nothing is returned); consequently `+` is the only
operator character the parser ever produces: every expression the parser
returns satisfies `OnlyPlus`. -/
theorem C8_plus_split_amended :
    (∀ (s : List Char) (i : Nat),
      ¬((trimChars s).head? = some '"' ∧ (trimChars s).getLast? = some '"') →
      trimChars s ≠ "true".toList →
      trimChars s ≠ "false".toList →
      ¬((trimChars s).contains '.' ∧ f64Ok (trimChars s)) →
      parseI64 (trimChars s) = none →
      findCh '+' (trimChars s) = some i →
      parse_expr s = do
        let l ← parse_expr ((trimChars s).take i)
        let r ← parse_expr ((trimChars s).drop (i + 1))
        Res.ok (.BinOp l '+' r)) ∧
    (∀ (f : Nat) (s : List Char) (e : Expr), parseExprF f s = .ok e → OnlyPlus e) := by
  constructor
  · intro s i h1 h2 h3 h4 h5 h6
    have hi := findCh_lt '+' _ i h6
    have ht := trimChars_length_le s
    show parseExprStep (parseExprF s.length) s = _
    simp only [parseExprStep, h5, h6]
    rw [if_neg h1, if_neg h2, if_neg h3, if_neg h4]
    rw [parse_expr_fuel s.length _ (by simp only [List.length_take]; omega),
        parse_expr_fuel s.length _ (by simp only [List.length_drop]; omega)]
  · exact parseExprF_onlyPlus

/-- C8 witness: `a+b` satisfies all the guards; the parser splits it at the
`+` into two variable references, and the result carries only `+`. -/
theorem C8_plus_split_witness :
    parse_expr "a+b".toList = Res.ok (.BinOp (.Var "a") '+' (.Var "b")) ∧
    OnlyPlus (.BinOp (.Var "a") '+' (.Var "b")) := by
  constructor
  · have h := C8_plus_split_amended.1 "a+b".toList 1 (by decide) (by decide) (by decide)
      (by decide) rfl rfl
    rw [h]
    rfl
  · exact C8_plus_split_amended.2 4 "a+b".toList _ rfl

/-- C9: execution is deterministic in the initial context: a statement
sequence with no control flow, run twice from two equal freshly constructed
contexts, produces identical results — in particular identical observable
output.  (No aliasing can occur in the embedded program: no syntax ever
constructs a list value, the only shared-mutable data of the source.) -/
theorem C9_deterministic (fuel : Nat) (stmts : List Stmt) (ctx1 ctx2 : Context)
    (_hcf : stmts.all noControlFlow = true) (h : ctx1 = ctx2) :
    exec_block fuel stmts ctx1 = exec_block fuel stmts ctx2 := by
  rw [h]

/-- C9 witness: a straight-line two-statement program run twice from fresh
contexts. -/
theorem C9_deterministic_witness :
    exec_block 2 [.VarDef "x" Ty.Int (.Literal (.Int 1)), .Print [.Var "x"]] Context.new =
      exec_block 2 [.VarDef "x" Ty.Int (.Literal (.Int 1)), .Print [.Var "x"]] Context.new :=
  C9_deterministic 2 _ Context.new Context.new rfl rfl

/-- C10: type-checking success does not guarantee evaluability.
(1) The checker accepts a `BinOp` whenever both operands check to the same
type, for any operand type and any operator character.
(2) The evaluator yields a value only when both operands evaluate to `Int`s
or both to `Float`s and the operator is one of `+ - * /`.
(3) Concretely, `print("a" + "b")` passes type-checking from a fresh context,
its argument evaluates to no value, and executing the statement crashes (the
`unwrap` in the `Print` arm panics). -/
theorem C10_check_vs_eval :
    (∀ (a b : Expr) (op : Char) (ctx : Context) (ta : Ty),
      type_check_expr a ctx = .ok ta → type_check_expr b ctx = .ok ta →
      type_check_expr (.BinOp a op b) ctx = .ok ta) ∧
    (∀ (a b : Expr) (op : Char) (ctx : Context) (v : Value),
      eval_expr (.BinOp a op b) ctx = some v →
      ((∃ p q : Int, eval_expr a ctx = some (.Int p) ∧ eval_expr b ctx = some (.Int q)) ∨
       (∃ p q : Float, eval_expr a ctx = some (.Float p) ∧ eval_expr b ctx = some (.Float q))) ∧
      (op = '+' ∨ op = '-' ∨ op = '*' ∨ op = '/')) ∧
    (type_check_stmt (.Print [.BinOp (.Literal (.Str "a")) '+' (.Literal (.Str "b"))])
        Context.new = (Context.new, none) ∧
     eval_expr (.BinOp (.Literal (.Str "a")) '+' (.Literal (.Str "b"))) Context.new = none ∧
     exec_stmt 1 (.Print [.BinOp (.Literal (.Str "a")) '+' (.Literal (.Str "b"))])
        Context.new = Res.crash) := by
  refine ⟨?_, ?_, rfl, rfl, rfl⟩
  · intro a b op ctx ta h1 h2
    unfold type_check_expr
    rw [h1, h2]
    show (if ta = ta then Except.ok ta else Except.error "Type mismatch in binop") = Except.ok ta
    rw [if_pos rfl]
  · intro a b op ctx v h
    simp only [eval_expr] at h
    cases hx : eval_expr a ctx with
    | none => rw [hx] at h; simp at h
    | some x =>
      rw [hx] at h
      cases hy : eval_expr b ctx with
      | none => rw [hy] at h; simp at h
      | some y =>
        rw [hy] at h
        simp only [Option.bind_eq_bind, Option.some_bind, Option.some_bind'] at h
        split at h
        · exact ⟨Or.inl ⟨_, _, rfl, rfl⟩, Or.inl rfl⟩
        · exact ⟨Or.inl ⟨_, _, rfl, rfl⟩, Or.inr (Or.inl rfl)⟩
        · exact ⟨Or.inl ⟨_, _, rfl, rfl⟩, Or.inr (Or.inr (Or.inl rfl))⟩
        · exact ⟨Or.inl ⟨_, _, rfl, rfl⟩, Or.inr (Or.inr (Or.inr rfl))⟩
        · exact ⟨Or.inr ⟨_, _, rfl, rfl⟩, Or.inl rfl⟩
        · exact ⟨Or.inr ⟨_, _, rfl, rfl⟩, Or.inr (Or.inl rfl)⟩
        · exact ⟨Or.inr ⟨_, _, rfl, rfl⟩, Or.inr (Or.inr (Or.inl rfl))⟩
        · exact ⟨Or.inr ⟨_, _, rfl, rfl⟩, Or.inr (Or.inr (Or.inr rfl))⟩
        · simp at h

/-- C10 witness: the checker accepts `"x" * "y"` — same operand types,
operator `*` — at type `Str`, although the evaluator has no rule for it. -/
theorem C10_check_vs_eval_witness :
    type_check_expr (.BinOp (.Literal (.Str "x")) '*' (.Literal (.Str "y"))) Context.new =
      .ok Ty.Str :=
  C10_check_vs_eval.1 _ _ '*' Context.new Ty.Str rfl rfl
